import Mathlib

/-!
Shallow embedding of the `gtfs-schedule` crate's validator, checked against its
natural-language specification.

Sources embedded here:
* `src/gtfs-schedule/src/schemas/common.rs` — `NaiveServiceTime` (parse, serialize,
  comparison).
* `src/gtfs-schedule/src/schemas/stop.rs` — `Stop::validate` (row-level rules).
* `src/gtfs-schedule/src/dataset.rs` — blocks of `Dataset::validate`: agency
  cardinality/uniqueness, the parent-station chain walk, stop-times monotonicity,
  calendar coverage (with the `__TEST__IGNORE_MISSING_CALENDAR_DATES` escape),
  timeframe interval non-overlap, translation `record_sub_id` handling for
  `stop_times`, and the non-multilingual `feed_lang` consistency check.

Modelling conventions:
* Rust `String` identifiers (all the `StringWrapper` newtypes compare, hash and
  display like their underlying strings) are Lean `String`s.
* `chrono::NaiveTime` values are flattened to their hour/minute/second components;
  `Timeframe`'s `NaiveTime`s appear only through their order, so they are modelled
  as seconds-of-day naturals.
* `f32` distances (`shape_dist_traveled`) are modelled by `F32`: an explicit
  NaN plus the numeric values. NaN passes the source's row check (`x < 0.0` is
  false for NaN) and defeats every `<=` in the monotonicity scan, so it must be
  representable; the non-NaN floats are linearly ordered and only their order
  is ever consulted, so they are carried as `Rat`. `F32.le`/`F32.lt` follow
  Rust's IEEE comparisons: false whenever either side is NaN.
* Concurrent maps (`DashMap`) are modelled by their enumeration: a step that
  iterates a map takes the enumeration as an explicit list parameter, so every
  theorem quantifies over the unspecified iteration order.
* Error values keep the kind, the field name and the offending records; the
  human-readable `value`/`reason` strings that the source formats into messages
  are not modelled.
* Rust panics (`expect` on a failed parse) are modelled by an explicit
  `RustOutcome.panicked` result, distinct from a returned error.
-/

/-! ## Service-day time (`NaiveServiceTime`, schemas/common.rs) -/

/-- Embeds `NaiveServiceTime`: a `chrono::NaiveTime` (flattened to hour, minute,
second) plus the `overflow` flag marking hours in `[24, 48)`. -/
structure NaiveServiceTime where
  hour : Nat
  minute : Nat
  second : Nat
  overflow : Bool
deriving DecidableEq

/-- Embeds `Ord for NaiveServiceTime` (common.rs:362-388): lexicographic on the
hour, minute and second of the wrapped `NaiveTime`. Note the source never reads
`overflow` here. -/
def NaiveServiceTime.cmp (a b : NaiveServiceTime) : Ordering :=
  if a.hour < b.hour then .lt
  else if a.hour > b.hour then .gt
  else if a.minute < b.minute then .lt
  else if a.minute > b.minute then .gt
  else if a.second < b.second then .lt
  else if a.second > b.second then .gt
  else .eq

/-- Seconds since midnight of the service day: the denotation the specification
orders service-day times by (an overflow time adds 24 hours). -/
def NaiveServiceTime.serviceDaySeconds (t : NaiveServiceTime) : Nat :=
  (if t.overflow then 24 * 3600 else 0) + t.hour * 3600 + t.minute * 60 + t.second

/-- Splits a character list at every `:`, as Rust's `split(':')` does. -/
def splitColonAux (cur : List Char) : List Char → List (List Char)
  | [] => [cur.reverse]
  | c :: rest =>
    if c = ':' then cur.reverse :: splitColonAux [] rest
    else splitColonAux (c :: cur) rest

/-- All colon-separated fields of a string. -/
def splitColon (s : String) : List (List Char) := splitColonAux [] s.data

/-- Value of an ASCII digit. -/
def digitVal (c : Char) : Option Nat :=
  if '0' ≤ c ∧ c ≤ '9' then some (c.toNat - '0'.toNat) else none

/-- Accumulates decimal digits; fails on a non-digit. -/
def digitsVal : List Char → Option Nat → Option Nat
  | [], acc => acc
  | c :: rest, acc =>
    match acc, digitVal c with
    | some a, some d => digitsVal rest (some (a * 10 + d))
    | _, _ => none

/-- Embeds Rust's `u32::from_str`: an optional leading `+`, then one or more
decimal digits, with the value below `2 ^ 32`. -/
def rustParseU32 (l : List Char) : Option Nat :=
  let l := if l.head? = some '+' then l.tail else l
  if l = [] then none
  else
    match digitsVal l (some 0) with
    | some v => if v < 2 ^ 32 then some v else none
    | none => none

/-- Embeds `chrono::NaiveTime::from_hms_opt`'s validity test: hour below 24,
minute and second below 60. -/
def fromHmsValid (h m s : Nat) : Bool := h < 24 ∧ m < 60 ∧ s < 60

/-- Embeds `TryFrom<&str> for NaiveServiceTime` (common.rs:307-322): split on
`:`, parse the first three fields as `u32`, set `overflow` when hours reach 24
and keep `hours % 24` in the time component. The source indexes `parts[0..2]`
directly and would panic on fewer than three fields; that path is outside the
valid inputs considered here, and the three-field pattern below covers every
input the claims mention. -/
def NaiveServiceTime.tryFrom (s : String) : Option NaiveServiceTime :=
  match splitColon s with
  | hs :: ms :: ss :: _ =>
    match rustParseU32 hs, rustParseU32 ms, rustParseU32 ss with
    | some hours, some minutes, some seconds =>
      if fromHmsValid (hours % 24) minutes seconds then
        some ⟨hours % 24, minutes, seconds, hours ≥ 24⟩
      else none
    | _, _, _ => none
  | _ => none

/-- Zero-padded two-digit decimal rendering, as Rust's formatting of
a component with a `{:02}` width. -/
def fmt02 (n : Nat) : String :=
  if n < 10 then "0" ++ Nat.repr n else Nat.repr n

/-- Embeds `From<NaiveServiceTime> for String` (common.rs:324-346): when
`overflow` is set the source takes `overflow_time = time` (not 24:00) and adds
its components to the time's own, so each component is doubled. -/
def NaiveServiceTime.toGtfsString (t : NaiveServiceTime) : String :=
  let oh := if t.overflow then t.hour else 0
  let om := if t.overflow then t.minute else 0
  let os := if t.overflow then t.second else 0
  fmt02 (t.hour + oh) ++ ":" ++ fmt02 (t.minute + om) ++ ":" ++ fmt02 (t.second + os)

/-! ## Location types and stops (schemas/stop.rs) -/

/-- Embeds `LocationType` (common.rs). -/
inductive LocationType where
  | stopOrPlatform
  | station
  | entranceOrExit
  | genericNode
  | boardingArea
deriving DecidableEq

/-- Row-level (`SchemaValidation`) error kinds, carrying the offending record. -/
inductive SchemaError (ρ : Type) where
  | missingValue (field : String) (record : ρ)
  | forbiddenValue (field : String) (record : ρ)
deriving DecidableEq

/-- Embeds `Stop` with the fields `Stop::validate` and the dataset-level stop
checks read; the remaining fields of the source record do not influence the
validators modelled here. -/
structure Stop where
  stop_id : String
  stop_name : Option String
  stop_coord : Option (Rat × Rat)
  location_type : Option LocationType
  parent_station : Option String
deriving DecidableEq

/-- Embeds `Stop::validate` (stop.rs:150-217): three `match` blocks on
`location_type`, each returning at the first failed rule. The source matches
`Some(StopOrPlatform) | Some(Station) | Some(EntranceOrExit)` for the name and
coordinate rules, so an absent `location_type` falls into the wildcard arm and
is not checked. -/
def Stop.validate (s : Stop) : Option (SchemaError Stop) :=
  if (s.location_type = some .stopOrPlatform ∨ s.location_type = some .station ∨
      s.location_type = some .entranceOrExit) ∧ s.stop_name = none then
    some (.missingValue "stop_name" s)
  else if (s.location_type = some .stopOrPlatform ∨ s.location_type = some .station ∨
      s.location_type = some .entranceOrExit) ∧ s.stop_coord = none then
    some (.missingValue "stop_coord" s)
  else if (s.location_type = some .entranceOrExit ∨ s.location_type = some .genericNode ∨
      s.location_type = some .boardingArea) ∧ s.parent_station = none then
    some (.missingValue "parent_station" s)
  else if s.location_type = some .station ∧ s.parent_station ≠ none then
    some (.forbiddenValue "parent_station" s)
  else none

/-! ## Dataset-level error model (error.rs, as used by `Dataset::validate`) -/

/-- Dataset-level (`DatasetValidation`) error kinds. `overlappingIntervals`
carries the group, service and endpoint data the source formats into its
details string. -/
inductive DatasetError (ρ : Type) where
  | missingValue (field : String) (records : List ρ)
  | primaryKeyNotUnique (field : String) (records : List ρ)
  | foreignKeyNotFound (field : String) (referencedTable : String) (records : List ρ)
  | inconsistentValue (field : String) (records : List ρ)
  | overlappingIntervals (timeframeGroupId serviceId : String)
      (start1 end1 start2 end2 : Nat) (records : List ρ)
deriving DecidableEq

/-! ## Parent-station chain walk (dataset.rs:440-469) -/

/-- Outcome of one parent-station chain walk. `outOfFuel` marks a walk that has
not finished within the given step budget; the source's `loop` has no budget
and simply keeps running. The source's `parent_chain` accumulator only feeds
error payloads and is omitted. -/
inductive WalkResult where
  | reachedStation (stationId : String)
  | fkNotFound (parentId : String)
  | topologyError
  | outOfFuel
deriving DecidableEq

/-- Embeds `self.stops.get(&current_parent_id)` as a lookup in the stop list. -/
def findStop (stops : List Stop) (sid : String) : Option Stop :=
  stops.find? (fun s => s.stop_id = sid)

/-- Embeds the `loop` of the stops-hierarchy block (dataset.rs:444-469), with an
explicit fuel parameter standing for the number of iterations executed: look up
the current parent, stop at a station, fail when the chain ends at a parentless
non-station, otherwise follow `parent_station`. The source performs no cycle
check, so no exit fires on a cyclic chain. -/
def walkParentChain (stops : List Stop) : Nat → String → WalkResult
  | 0, _ => .outOfFuel
  | fuel + 1, currentId =>
    match findStop stops currentId with
    | none => .fkNotFound currentId
    | some parent =>
      if parent.location_type = some .station then .reachedStation currentId
      else
        match parent.parent_station with
        | none => .topologyError
        | some next => walkParentChain stops fuel next

/-- Two stop-or-platform records whose `parent_station` fields form a 2-cycle;
each passes `Stop::validate` (absent `location_type` has no row rule and may
carry a parent). -/
def cyclicStops : List Stop :=
  [⟨"A", some "Stop A", some (0, 0), none, some "B"⟩,
   ⟨"B", some "Stop B", some (0, 0), none, some "A"⟩]

/-! ## Claim C2 — the chain walk does not terminate on a parent cycle -/

/-- Claim C2 (code bug): the claim states that for every dataset — including one
whose stops' `parent_station` references form a cycle of non-station stops —
the parent chain walk terminates within N steps (N the number of stops). On
`cyclicStops` (two row-valid stops pointing at each other) the walk exhausts
every step budget without reaching a station or returning an error: the
source's `loop` never exits, so `Dataset::validate` diverges. -/
theorem walkParentChain_diverges_on_cycle :
    (∀ fuel : Nat,
      walkParentChain cyclicStops fuel "A" = .outOfFuel ∧
      walkParentChain cyclicStops fuel "B" = .outOfFuel) ∧
    (∀ s ∈ cyclicStops, s.validate = none) := by
  constructor
  · intro fuel
    induction fuel with
    | zero => exact ⟨rfl, rfl⟩
    | succ n ih =>
      refine ⟨?_, ?_⟩
      · show walkParentChain cyclicStops (n + 1) "A" = .outOfFuel
        simp only [walkParentChain, cyclicStops, findStop, List.find?]
        norm_num
        exact ih.2
      · show walkParentChain cyclicStops (n + 1) "B" = .outOfFuel
        simp only [walkParentChain, cyclicStops, findStop, List.find?]
        norm_num
        exact ih.1
  · decide

/-! ## Claim C4 — `NaiveServiceTime` comparison vs the service-day order -/

/-- Claim C4 (code bug): the claim states `t1 < t2` iff `t1` has fewer seconds
since midnight of the service day, and that every overflow time compares
greater than every non-overflow time. The source's `cmp` only compares the
time-of-day components and never reads `overflow`: 25:00:00 compares `lt`
against 02:00:00 although it denotes a later service-day instant, and 25:00:00
compares `eq` against 01:00:00 although `PartialEq` distinguishes them. -/
theorem nstCmp_not_service_day_order :
    NaiveServiceTime.cmp ⟨1, 0, 0, true⟩ ⟨2, 0, 0, false⟩ = Ordering.lt ∧
    NaiveServiceTime.serviceDaySeconds ⟨2, 0, 0, false⟩ <
      NaiveServiceTime.serviceDaySeconds ⟨1, 0, 0, true⟩ ∧
    NaiveServiceTime.cmp ⟨1, 0, 0, true⟩ ⟨1, 0, 0, false⟩ = Ordering.eq ∧
    (⟨1, 0, 0, true⟩ : NaiveServiceTime) ≠ ⟨1, 0, 0, false⟩ := by
  decide

/-! ## Claim C5 — service-day time round-trip through its textual form -/

/-- Claim C5 (code bug): the claim states every valid `H[H]:MM:SS` string with
hours in `[0, 48)` parses and re-serializes to a string denoting the same time.
For the overflow input "25:35:00" the serializer adds the stored time to itself
(instead of adding 24 hours), producing "02:70:00" — a string that denotes no
time at all and does not re-parse. Non-overflow values do round-trip, as the
final conjunct illustrates. -/
theorem serviceTime_roundtrip_broken :
    NaiveServiceTime.tryFrom "25:35:00" = some ⟨1, 35, 0, true⟩ ∧
    NaiveServiceTime.toGtfsString ⟨1, 35, 0, true⟩ = "02:70:00" ∧
    NaiveServiceTime.tryFrom "02:70:00" = none ∧
    NaiveServiceTime.toGtfsString ⟨23, 59, 1, false⟩ = "23:59:01" ∧
    NaiveServiceTime.tryFrom "23:59:01" = some ⟨23, 59, 1, false⟩ := by
  decide

/-! ## Claim C9 — `Stop::validate` name/coordinate presence rule -/

/-- Claim C9 counterexample: a stop with absent `location_type` (which the
specification reads as the default stop-or-platform), no `stop_name` and no
coordinates passes `Stop::validate`, because the source only matches the
explicit `Some(...)` location types; the claim expects a missing-value
failure here. -/
theorem stopValidate_absent_location_type_counterexample :
    Stop.validate ⟨"S1", none, none, none, none⟩ = none := by decide

/-- Claim C9 (amended): `Stop::validate` returns the missing-value failure on
`stop_name` exactly for stops whose `location_type` is explicitly
stop-or-platform, station or entrance-or-exit and whose name is absent; the
failure on `stop_coord` exactly for such stops with a name but no coordinates;
and stops with absent `location_type`, generic nodes and boarding areas never
receive either failure. -/
theorem stopValidate_name_coord_spec (s : Stop) :
    (Stop.validate s = some (.missingValue "stop_name" s) ↔
      (s.location_type = some .stopOrPlatform ∨ s.location_type = some .station ∨
        s.location_type = some .entranceOrExit) ∧ s.stop_name = none) ∧
    (Stop.validate s = some (.missingValue "stop_coord" s) ↔
      (s.location_type = some .stopOrPlatform ∨ s.location_type = some .station ∨
        s.location_type = some .entranceOrExit) ∧ s.stop_name ≠ none ∧ s.stop_coord = none) ∧
    ((s.location_type = none ∨ s.location_type = some .genericNode ∨
        s.location_type = some .boardingArea) →
      Stop.validate s ≠ some (.missingValue "stop_name" s) ∧
      Stop.validate s ≠ some (.missingValue "stop_coord" s)) := by
  obtain ⟨id, name, coord, loc, parent⟩ := s
  rcases loc with _ | (_ | _ | _ | _ | _) <;>
    rcases name with _ | nm <;>
    rcases coord with _ | cd <;>
    rcases parent with _ | ps <;>
    simp [Stop.validate]

/-- Claim C9 witness: the amended rule applied at concrete stops — a station
without a name fails on `stop_name`, and a boarding area with nothing but an
identifier never receives a name or coordinate failure. -/
theorem stopValidate_name_coord_spec_witness :
    Stop.validate ⟨"W1", none, none, some .station, none⟩ =
      some (.missingValue "stop_name" ⟨"W1", none, none, some .station, none⟩) ∧
    Stop.validate ⟨"W2", none, none, some .boardingArea, some "P"⟩ ≠
      some (.missingValue "stop_coord" ⟨"W2", none, none, some .boardingArea, some "P"⟩) :=
  ⟨((stopValidate_name_coord_spec ⟨"W1", none, none, some .station, none⟩).1).mpr
      (by decide),
   ((stopValidate_name_coord_spec ⟨"W2", none, none, some .boardingArea, some "P"⟩).2.2
      (by decide)).2⟩

/-! ## Calendar coverage and the test-only escape valve (dataset.rs:716-754) -/

/-- Embeds Rust's `bool::from_str`, which accepts exactly the literals `true`
and `false`. -/
def rustParseBool (s : String) : Option Bool :=
  if s = "true" then some true
  else if s = "false" then some false
  else none

/-- Embeds the escape-valve computation (dataset.rs:725-731): when the
environment variable is set, `bool::from_str(&v).unwrap_or(true)` — an
unparseable value therefore defaults to `true` (skip); when unset, `false`. -/
def ignoreMissingCalendarDates (env : Option String) : Bool :=
  match env with
  | some v => (rustParseBool v).getD true
  | none => false

/-- Embeds `Trip` with the fields the calendar-coverage block reads. -/
structure TripRec where
  trip_id : String
  service_id : String
deriving DecidableEq

/-- Embeds the calendar-coverage block (dataset.rs:716-754): when `calendar` is
empty, fail with a missing-value error if `calendar_dates` is also empty and
the escape valve is off; then require every trip's `service_id` to appear in
`calendar_dates`. The maps appear through their enumerations: the lists of
`service_id`s of `calendar` and `calendar_dates`, and the trips in iteration
order. -/
def validateCalendarCoverage (env : Option String) (calendarServiceIds : List String)
    (calendarDateServiceIds : List String) (trips : List TripRec) :
    Option (DatasetError TripRec) :=
  if calendarServiceIds = [] then
    if calendarDateServiceIds = [] ∧ ¬ ignoreMissingCalendarDates env then
      some (.missingValue "calendar.txt and calendar_dates.txt" [])
    else
      match trips.find? (fun t => ¬ calendarDateServiceIds.contains t.service_id) with
      | some t => some (.foreignKeyNotFound "service_id" "calendar_dates.txt" [t])
      | none => none
  else none

/-! ## Claim C10 — the escape valve's semantics -/

/-- Claim C10 counterexample: with both calendar tables empty and the variable
set to the non-truthy literal "0", the claim expects the missing-value failure
to be returned; the source's `unwrap_or(true)` turns the failed parse of "0"
into `true`, so the failure is skipped. -/
theorem validateCalendarCoverage_counterexample :
    ignoreMissingCalendarDates (some "0") = true ∧
    validateCalendarCoverage (some "0") [] [] [] = none := by decide

/-- Claim C10 (amended): with both calendar tables empty (and no trips), the
calendar-coverage step returns its missing-value failure iff the environment
variable is unset or set to the exact literal `false`; any other set value —
`true`, or any literal `bool::from_str` cannot parse, such as "0" — makes the
step skip the failure. -/
theorem validateCalendarCoverage_env_spec (env : Option String) :
    (validateCalendarCoverage env [] [] [] = none ↔
      ∃ v, env = some v ∧ v ≠ "false") ∧
    (validateCalendarCoverage env [] [] [] =
        some (.missingValue "calendar.txt and calendar_dates.txt" []) ↔
      (env = none ∨ env = some "false")) := by
  rcases env with _ | v
  · simp [validateCalendarCoverage, ignoreMissingCalendarDates]
  · by_cases hf : v = "false" <;>
      by_cases ht : v = "true" <;>
      simp_all [validateCalendarCoverage, ignoreMissingCalendarDates, rustParseBool]

/-! ## Feed-language consistency, non-multilingual branch (dataset.rs:2061-2076) -/

/-- Embeds `FeedInfo` with the field the feed-language check reads. -/
structure FeedInfo where
  feed_lang : String
deriving DecidableEq

/-- Embeds the non-multilingual branch of the feed-info check
(dataset.rs:2061-2076). `languages` is an enumeration of the `HashSet` of
languages occurring in translations, in the set's unspecified iteration order;
the source compares only `languages.iter().next().unwrap()` — the first
element of that enumeration — against `feed_lang`. -/
def checkFeedLangNonMul (languages : List String) (fi : FeedInfo) :
    Option (DatasetError FeedInfo) :=
  if languages.length > 1 ∧ languages.head? ≠ some fi.feed_lang then
    some (.inconsistentValue "feed_lang" [fi])
  else none

/-- The proposition that `langs` enumerates the set of elements of `occurring`
without repetition — what a `HashSet` iteration yields, in some order. -/
def isSetEnumeration (langs occurring : List String) : Prop :=
  langs.Nodup ∧ (∀ l ∈ langs, l ∈ occurring) ∧ ∀ l ∈ occurring, l ∈ langs

instance (langs occurring : List String) : Decidable (isSetEnumeration langs occurring) := by
  unfold isSetEnumeration; infer_instance

/-! ## Claim C8 — non-multilingual feed-language rule -/

/-- Claim C8 counterexample: with translations in languages {en, fr} and
`feed_lang` = fr, one of the languages matches `feed_lang`, so the claim says
the rule passes on every run. Both lists below enumerate that same set, yet
under the enumeration starting with "en" the source fails (it compares only
the first element), and under the other it passes: the outcome is neither the
claimed one nor run-independent. -/
theorem checkFeedLangNonMul_counterexample :
    isSetEnumeration ["en", "fr"] ["fr", "en"] ∧
    isSetEnumeration ["fr", "en"] ["fr", "en"] ∧
    checkFeedLangNonMul ["en", "fr"] ⟨"fr"⟩ =
      some (.inconsistentValue "feed_lang" [⟨"fr"⟩]) ∧
    checkFeedLangNonMul ["fr", "en"] ⟨"fr"⟩ = none := by decide

/-- Claim C8 (amended): when `feed_lang` is not the multilingual sentinel, the
check fails with the inconsistent-value error on `feed_lang` iff more than one
distinct language appears in translations and the first language of the set's
(unspecified) iteration order differs from `feed_lang`; with several languages
present the outcome therefore depends on that order even when one of them
equals `feed_lang`. -/
theorem checkFeedLangNonMul_spec (languages : List String) (fi : FeedInfo) :
    checkFeedLangNonMul languages fi = none ↔
      languages.length ≤ 1 ∨ languages.head? = some fi.feed_lang := by
  unfold checkFeedLangNonMul
  split_ifs with h
  · obtain ⟨h1, h2⟩ := h
    simp only [reduceCtorEq, false_iff, not_or]
    exact ⟨by omega, h2⟩
  · simp only [true_iff]
    rcases not_and_or.mp h with h | h
    · exact Or.inl (by omega)
    · exact Or.inr (not_not.mp h)

/-! ## Translation `record_sub_id` handling for stop_times (dataset.rs:1655-1669) -/

/-- Result of running a Rust expression that may panic: either the value, or a
panic that escapes through non-local control. -/
inductive RustOutcome (α : Type) where
  | ok (val : α)
  | panicked (msg : String)
deriving DecidableEq

/-- Embeds the `f32` values reaching the stop-times distance comparisons: an
explicit NaN, and the remaining floats — linearly ordered, only ever compared
here — carried as rationals. -/
inductive F32 where
  | nan
  | val (q : Rat)
deriving DecidableEq

/-- Embeds Rust's `f32` operator `<=` (`PartialOrd`): false whenever either
operand is NaN. -/
def F32.le : F32 → F32 → Bool
  | .val a, .val b => decide (a ≤ b)
  | _, _ => false

/-- Embeds Rust's `f32` operator `<` (`PartialOrd`): false whenever either
operand is NaN. -/
def F32.lt : F32 → F32 → Bool
  | .val a, .val b => decide (a < b)
  | _, _ => false

/-- Embeds `StopTime` with the fields the stop-times blocks of
`Dataset::validate` read. -/
structure StopTime where
  trip_id : String
  arrival_time : Option NaiveServiceTime
  stop_id : Option String
  stop_sequence : Nat
  shape_dist_traveled : Option F32
deriving DecidableEq

/-- Embeds `self.stop_times.iter().any(|st| st.stop_sequence ==
u32::from_str(record_sub_id).expect(...))` (dataset.rs:1656-1660): the closure
re-parses `record_sub_id` for each record and panics on the first record if the
parse fails; on an empty map the closure never runs. -/
def anyStopSequenceEqParsed (stopTimes : List StopTime) (sub : String) :
    RustOutcome Bool :=
  match stopTimes with
  | [] => .ok false
  | st :: rest =>
    match rustParseU32 sub.data with
    | none => .panicked "Could not parse stop_sequence from record_sub_id"
    | some v => if st.stop_sequence = v then .ok true else anyStopSequenceEqParsed rest sub

/-- Embeds `Translation` with the fields the translation checks read. -/
structure Translation where
  table_name : String
  language : String
  record_id : Option String
  record_sub_id : Option String
  field_value : Option String
deriving DecidableEq

/-- Embeds the `record_sub_id` arm of the `TableName::StopTimes` case
(dataset.rs:1655-1669): when `record_sub_id` is present, search the stop-times
for a matching `stop_sequence` (parsing inside the closure, where a failure is
a panic) and return a foreign-key error when no record matches. -/
def translationStopTimesSubIdCheck (stopTimes : List StopTime) (tr : Translation) :
    RustOutcome (Option (DatasetError Translation)) :=
  match tr.record_sub_id with
  | none => .ok none
  | some sub =>
    match anyStopSequenceEqParsed stopTimes sub with
    | .panicked m => .panicked m
    | .ok true => .ok none
    | .ok false => .ok (some (.foreignKeyNotFound "stop_sequence" "stop_times.txt" [tr]))

/-! ## Claim C3 — validation panics on an unparseable `record_sub_id` -/

/-- Claim C3 (code bug): the claim states `Dataset::validate` never fails
through non-local control, and that a translation whose `record_sub_id` is not
parseable in the form its `table_name` requires yields a returned error. On a
dataset with one stop-time and one `stop_times` translation whose
`record_sub_id` is "abc", the source's `u32::from_str(...).expect(...)` panics
instead of returning; a parseable but absent `record_sub_id` does yield the
returned foreign-key error, as the second conjunct shows. -/
theorem translationStopTimesSubIdCheck_panics :
    translationStopTimesSubIdCheck
        [⟨"T1", none, some "S1", 1, none⟩]
        ⟨"stop_times", "fr", some "T1", some "abc", none⟩ =
      .panicked "Could not parse stop_sequence from record_sub_id" ∧
    translationStopTimesSubIdCheck
        [⟨"T1", none, some "S1", 1, none⟩]
        ⟨"stop_times", "fr", some "T1", some "7", none⟩ =
      .ok (some (.foreignKeyNotFound "stop_sequence" "stop_times.txt"
        [⟨"stop_times", "fr", some "T1", some "7", none⟩])) := by decide

/-! ## Agency cardinality, uniqueness and timezone (dataset.rs:378-427) -/

/-- Embeds `Agency` with the fields the agency block reads. -/
structure Agency where
  agency_id : Option String
  agency_timezone : String
deriving DecidableEq

/-- Embeds the loop body of the agency block (dataset.rs:381-426). The running
state is the `agency_ids` set (a list of the inserted `Option<AgencyId>`
values) and the `agency_timezone` `OnceCell`. Per agency, in source order:
missing `agency_id` fails, a previously seen `agency_id` fails carrying every
agency with that identifier, then the timezone cell is either seeded or
compared. -/
def validateAgenciesLoop (all : List Agency) :
    List Agency → List (Option String) → Option String → Option (DatasetError Agency)
  | [], _, _ => none
  | a :: rest, seen, tzCell =>
    if a.agency_id = none then some (.missingValue "agency_id" [a])
    else if a.agency_id ∈ seen then
      some (.primaryKeyNotUnique "agency_id"
        (all.filter (fun b => b.agency_id = a.agency_id)))
    else
      match tzCell with
      | none => validateAgenciesLoop all rest (a.agency_id :: seen) (some a.agency_timezone)
      | some t =>
        if a.agency_timezone ≠ t then some (.inconsistentValue "agency_timezone" [a])
        else validateAgenciesLoop all rest (a.agency_id :: seen) (some t)

/-- Embeds the agency block of `Dataset::validate` (dataset.rs:378-427): the
loop runs only when there is more than one agency. -/
def validateAgencies (agencies : List Agency) : Option (DatasetError Agency) :=
  if agencies.length > 1 then validateAgenciesLoop agencies agencies [] none else none

/-- Pairwise-equal timezones over a cons follow from the tail agreeing with
the head and being pairwise equal. -/
theorem tzPairwise_cons (a : Agency) (rest : List Agency)
    (hall : ∀ x ∈ rest, x.agency_timezone = a.agency_timezone)
    (hrest : ∀ x ∈ rest, ∀ y ∈ rest, x.agency_timezone = y.agency_timezone) :
    ∀ x ∈ a :: rest, ∀ y ∈ a :: rest, x.agency_timezone = y.agency_timezone := by
  intro x hx y hy
  rcases List.mem_cons.mp hx with hxa | hx
  · rcases List.mem_cons.mp hy with hya | hy
    · rw [hxa, hya]
    · rw [hxa]; exact (hall y hy).symm
  · rcases List.mem_cons.mp hy with hya | hy
    · rw [hya]; exact hall x hx
    · exact hrest x hx y hy

theorem validateAgenciesLoop_none_iff (all : List Agency) (l : List Agency) :
    ∀ (seen : List (Option String)) (tzCell : Option String),
      validateAgenciesLoop all l seen tzCell = none ↔
        ((∀ a ∈ l, a.agency_id ≠ none) ∧
         (l.map (fun a => a.agency_id)).Nodup ∧
         (∀ a ∈ l, a.agency_id ∉ seen) ∧
         (∀ t, tzCell = some t → ∀ a ∈ l, a.agency_timezone = t) ∧
         (∀ a ∈ l, ∀ b ∈ l, a.agency_timezone = b.agency_timezone)) := by
  induction l with
  | nil => intro seen tzCell; simp [validateAgenciesLoop]
  | cons a rest ih =>
    intro seen tzCell
    cases tzCell with
    | none =>
      simp only [validateAgenciesLoop]
      by_cases ha : a.agency_id = none
      · rw [if_pos ha]
        simp only [reduceCtorEq, false_iff]
        intro h
        exact h.1 a (List.mem_cons_self a rest) ha
      · rw [if_neg ha]
        by_cases hs : a.agency_id ∈ seen
        · rw [if_pos hs]
          simp only [reduceCtorEq, false_iff]
          intro h
          exact h.2.2.1 a (List.mem_cons_self a rest) hs
        · rw [if_neg hs, ih]
          constructor
          · rintro ⟨h1, h2, h3, h4, h5⟩
            refine ⟨?_, ?_, ?_, ?_, ?_⟩
            · intro x hx
              rcases List.mem_cons.mp hx with hxa | hx
              · rw [hxa]; exact ha
              · exact h1 x hx
            · rw [List.map_cons, List.nodup_cons]
              refine ⟨?_, h2⟩
              intro hmem
              obtain ⟨b, hb, hbid⟩ := List.mem_map.mp hmem
              exact h3 b hb (by rw [hbid]; exact List.mem_cons_self _ _)
            · intro x hx
              rcases List.mem_cons.mp hx with hxa | hx
              · rw [hxa]; exact hs
              · intro hxs
                exact h3 x hx (List.mem_cons_of_mem _ hxs)
            · intro t ht
              exact Option.noConfusion ht
            · exact tzPairwise_cons a rest (fun x hx => h4 a.agency_timezone rfl x hx) h5
          · rintro ⟨h1, h2, h3, h4, h5⟩
            rw [List.map_cons, List.nodup_cons] at h2
            refine ⟨fun x hx => h1 x (List.mem_cons_of_mem _ hx), h2.2, ?_, ?_, ?_⟩
            · intro x hx hmem
              rcases List.mem_cons.mp hmem with heq | hmem2
              · exact h2.1 (List.mem_map.mpr ⟨x, hx, heq⟩)
              · exact h3 x (List.mem_cons_of_mem _ hx) hmem2
            · intro t ht x hx
              injection ht with ht2
              rw [← ht2]
              exact h5 x (List.mem_cons_of_mem _ hx) a (List.mem_cons_self _ _)
            · intro x hx y hy
              exact h5 x (List.mem_cons_of_mem _ hx) y (List.mem_cons_of_mem _ hy)
    | some t =>
      simp only [validateAgenciesLoop]
      by_cases ha : a.agency_id = none
      · rw [if_pos ha]
        simp only [reduceCtorEq, false_iff]
        intro h
        exact h.1 a (List.mem_cons_self a rest) ha
      · rw [if_neg ha]
        by_cases hs : a.agency_id ∈ seen
        · rw [if_pos hs]
          simp only [reduceCtorEq, false_iff]
          intro h
          exact h.2.2.1 a (List.mem_cons_self a rest) hs
        · rw [if_neg hs]
          by_cases he : a.agency_timezone = t
          · rw [if_neg (not_not_intro he), ih]
            constructor
            · rintro ⟨h1, h2, h3, h4, h5⟩
              refine ⟨?_, ?_, ?_, ?_, ?_⟩
              · intro x hx
                rcases List.mem_cons.mp hx with hxa | hx
                · rw [hxa]; exact ha
                · exact h1 x hx
              · rw [List.map_cons, List.nodup_cons]
                refine ⟨?_, h2⟩
                intro hmem
                obtain ⟨b, hb, hbid⟩ := List.mem_map.mp hmem
                exact h3 b hb (by rw [hbid]; exact List.mem_cons_self _ _)
              · intro x hx
                rcases List.mem_cons.mp hx with hxa | hx
                · rw [hxa]; exact hs
                · intro hxs
                  exact h3 x hx (List.mem_cons_of_mem _ hxs)
              · intro t2 ht2 x hx
                injection ht2 with ht3
                rcases List.mem_cons.mp hx with hxa | hx
                · rw [hxa, ← ht3]; exact he
                · exact h4 t2 (by rw [ht3]) x hx
              · refine tzPairwise_cons a rest ?_ h5
                intro x hx
                rw [h4 t rfl x hx, he]
            · rintro ⟨h1, h2, h3, h4, h5⟩
              rw [List.map_cons, List.nodup_cons] at h2
              refine ⟨fun x hx => h1 x (List.mem_cons_of_mem _ hx), h2.2, ?_, ?_, ?_⟩
              · intro x hx hmem
                rcases List.mem_cons.mp hmem with heq | hmem2
                · exact h2.1 (List.mem_map.mpr ⟨x, hx, heq⟩)
                · exact h3 x (List.mem_cons_of_mem _ hx) hmem2
              · intro t2 ht2 x hx
                exact h4 t2 ht2 x (List.mem_cons_of_mem _ hx)
              · intro x hx y hy
                exact h5 x (List.mem_cons_of_mem _ hx) y (List.mem_cons_of_mem _ hy)
          · rw [if_pos (Ne.intro he)]
            simp only [reduceCtorEq, false_iff]
            intro h
            exact he (h.2.2.2.1 t rfl a (List.mem_cons_self _ _))

theorem validateAgenciesLoop_some_shape (all : List Agency) (l : List Agency) :
    ∀ (seen : List (Option String)) (tzCell : Option String) (e : DatasetError Agency),
      validateAgenciesLoop all l seen tzCell = some e →
        (∃ a ∈ l, e = .missingValue "agency_id" [a]) ∨
        (∃ a ∈ l, e = .primaryKeyNotUnique "agency_id"
            (all.filter (fun b => b.agency_id = a.agency_id))) ∨
        (∃ a ∈ l, e = .inconsistentValue "agency_timezone" [a]) := by
  induction l with
  | nil => intro seen tzCell e h; exact absurd h (by simp [validateAgenciesLoop])
  | cons a rest ih =>
    intro seen tzCell e h
    cases tzCell with
    | none =>
      simp only [validateAgenciesLoop] at h
      by_cases ha : a.agency_id = none
      · rw [if_pos ha] at h
        exact Or.inl ⟨a, List.mem_cons_self _ _, (Option.some.injEq _ _ ▸ h).symm⟩
      · rw [if_neg ha] at h
        by_cases hs : a.agency_id ∈ seen
        · rw [if_pos hs] at h
          exact Or.inr (Or.inl ⟨a, List.mem_cons_self _ _, (Option.some.injEq _ _ ▸ h).symm⟩)
        · rw [if_neg hs] at h
          rcases ih _ _ _ h with ⟨b, hb, hee⟩ | ⟨b, hb, hee⟩ | ⟨b, hb, hee⟩
          · exact Or.inl ⟨b, List.mem_cons_of_mem _ hb, hee⟩
          · exact Or.inr (Or.inl ⟨b, List.mem_cons_of_mem _ hb, hee⟩)
          · exact Or.inr (Or.inr ⟨b, List.mem_cons_of_mem _ hb, hee⟩)
    | some t =>
      simp only [validateAgenciesLoop] at h
      by_cases ha : a.agency_id = none
      · rw [if_pos ha] at h
        exact Or.inl ⟨a, List.mem_cons_self _ _, (Option.some.injEq _ _ ▸ h).symm⟩
      · rw [if_neg ha] at h
        by_cases hs : a.agency_id ∈ seen
        · rw [if_pos hs] at h
          exact Or.inr (Or.inl ⟨a, List.mem_cons_self _ _, (Option.some.injEq _ _ ▸ h).symm⟩)
        · rw [if_neg hs] at h
          by_cases he : a.agency_timezone ≠ t
          · rw [if_pos he] at h
            exact Or.inr (Or.inr ⟨a, List.mem_cons_self _ _,
              (Option.some.injEq _ _ ▸ h).symm⟩)
          · rw [if_neg he] at h
            rcases ih _ _ _ h with ⟨b, hb, hee⟩ | ⟨b, hb, hee⟩ | ⟨b, hb, hee⟩
            · exact Or.inl ⟨b, List.mem_cons_of_mem _ hb, hee⟩
            · exact Or.inr (Or.inl ⟨b, List.mem_cons_of_mem _ hb, hee⟩)
            · exact Or.inr (Or.inr ⟨b, List.mem_cons_of_mem _ hb, hee⟩)

theorem validateAgenciesLoop_first_tz_mismatch (all : List Agency) (l : List Agency) :
    ∀ (seen : List (Option String)) (t : String),
      (∀ a ∈ l, a.agency_id ≠ none) →
      (∀ a ∈ l, a.agency_id ∉ seen) →
      (l.map (fun a => a.agency_id)).Nodup →
      validateAgenciesLoop all l seen (some t) =
        match l.find? (fun a => a.agency_timezone ≠ t) with
        | some b => some (.inconsistentValue "agency_timezone" [b])
        | none => none := by
  induction l with
  | nil => intro seen t _ _ _; simp [validateAgenciesLoop]
  | cons a rest ih =>
    intro seen t h1 h2 hnd
    simp only [validateAgenciesLoop]
    rw [if_neg (h1 a (List.mem_cons_self _ _)), if_neg (h2 a (List.mem_cons_self _ _))]
    by_cases he : a.agency_timezone ≠ t
    · rw [if_pos he, List.find?_cons_of_pos _ (by simpa using he)]
    · rw [if_neg he, List.find?_cons_of_neg _ (by simpa using he)]
      rw [List.map_cons, List.nodup_cons] at hnd
      refine ih _ t (fun x hx => h1 x (List.mem_cons_of_mem _ hx)) ?_ hnd.2
      intro x hx hmem
      rcases List.mem_cons.mp hmem with heq | hmem'
      · exact hnd.1 (List.mem_map.mpr ⟨x, hx, heq⟩)
      · exact h2 x (List.mem_cons_of_mem _ hx) hmem'

/-! ## Claim C7 — agency cardinality, uniqueness and shared timezone -/

/-- Claim C7: with more than one agency the agency block fails precisely when
some agency lacks `agency_id`, two agencies share an `agency_id`, or two
agencies have different `agency_timezone` values; with zero or one agency it
never fails. Every error is a missing-value on `agency_id`, a
primary-key-not-unique on `agency_id`, or an inconsistent-value on
`agency_timezone` carrying one offending agency; and when identifiers are all
present and distinct, the error is the inconsistent-value on
`agency_timezone` carrying the first agency whose timezone differs from the
first agency's — the later-encountered one of the violating pair. -/
theorem validateAgencies_spec (l : List Agency) :
    (validateAgencies l = none ↔
      l.length ≤ 1 ∨
        ((∀ a ∈ l, a.agency_id ≠ none) ∧
         (l.map (fun a => a.agency_id)).Nodup ∧
         ∀ a ∈ l, ∀ b ∈ l, a.agency_timezone = b.agency_timezone)) ∧
    (∀ e, validateAgencies l = some e →
      (∃ a ∈ l, e = .missingValue "agency_id" [a]) ∨
      (∃ a ∈ l, e = .primaryKeyNotUnique "agency_id"
          (l.filter (fun b => b.agency_id = a.agency_id))) ∨
      (∃ a ∈ l, e = .inconsistentValue "agency_timezone" [a])) ∧
    (∀ a0 rest b, l = a0 :: rest →
      (∀ a ∈ l, a.agency_id ≠ none) →
      (l.map (fun a => a.agency_id)).Nodup →
      rest.find? (fun a => a.agency_timezone ≠ a0.agency_timezone) = some b →
      validateAgencies l = some (.inconsistentValue "agency_timezone" [b])) := by
  refine ⟨?_, ?_, ?_⟩
  · unfold validateAgencies
    by_cases hlen : l.length > 1
    · rw [if_pos hlen, validateAgenciesLoop_none_iff]
      constructor
      · rintro ⟨h1, h2, _, _, h5⟩
        exact Or.inr ⟨h1, h2, h5⟩
      · rintro (h | ⟨h1, h2, h5⟩)
        · omega
        · exact ⟨h1, h2, fun a ha hmem => absurd hmem (List.not_mem_nil _), fun t ht =>
            Option.noConfusion ht, h5⟩
    · rw [if_neg hlen]
      simp only [true_iff]
      exact Or.inl (by omega)
  · intro e he
    unfold validateAgencies at he
    by_cases hlen : l.length > 1
    · rw [if_pos hlen] at he
      exact validateAgenciesLoop_some_shape l l [] none e he
    · rw [if_neg hlen] at he
      exact Option.noConfusion he
  · rintro a0 rest b rfl h1 h2 hfind
    have hrest : rest ≠ [] := by
      intro hnil
      rw [hnil] at hfind
      exact Option.noConfusion hfind
    have hlen : (a0 :: rest).length > 1 := by
      cases rest with
      | nil => exact absurd rfl hrest
      | cons x xs => simp [List.length_cons]
    unfold validateAgencies
    rw [if_pos hlen]
    simp only [validateAgenciesLoop]
    rw [if_neg (h1 a0 (List.mem_cons_self _ _)), if_neg (List.not_mem_nil _)]
    rw [List.map_cons, List.nodup_cons] at h2
    rw [validateAgenciesLoop_first_tz_mismatch]
    · rw [hfind]
    · exact fun x hx => h1 x (List.mem_cons_of_mem _ hx)
    · intro x hx hmem
      rcases List.mem_cons.mp hmem with heq | hmem2
      · exact h2.1 (List.mem_map.mpr ⟨x, hx, heq⟩)
      · exact absurd hmem2 (List.not_mem_nil _)
    · exact h2.2

/-- Claim C7 witness: scenario S1 of the specification applied through the
theorem — two agencies with distinct identifiers and different timezones fail
with the inconsistent-value error on `agency_timezone` carrying agency B. -/
theorem validateAgencies_spec_witness :
    validateAgencies
        [⟨some "A", "America/Los_Angeles"⟩, ⟨some "B", "America/New_York"⟩] =
      some (.inconsistentValue "agency_timezone" [⟨some "B", "America/New_York"⟩]) :=
  (validateAgencies_spec
      [⟨some "A", "America/Los_Angeles"⟩, ⟨some "B", "America/New_York"⟩]).2.2
    ⟨some "A", "America/Los_Angeles"⟩ [⟨some "B", "America/New_York"⟩]
    ⟨some "B", "America/New_York"⟩ rfl (by decide) (by decide) (by decide)

/-! ## Timeframe interval non-overlap (dataset.rs:870-936) -/

/-- Embeds `Timeframe`: start and end are `chrono::NaiveTime` values, which the
check only compares, so they appear as seconds-of-day naturals. -/
structure Timeframe where
  timeframe_group_id : String
  start_time : Option Nat
  end_time : Option Nat
  service_id : String
deriving DecidableEq

/-- Embeds the overlap test of dataset.rs:915-922: it fires only when all four
endpoints are present and the source's symmetric open-overlap condition holds. -/
def pairOverlap (t1 t2 : Timeframe) : Bool :=
  match t1.start_time, t1.end_time, t2.start_time, t2.end_time with
  | some s1, some e1, some s2, some e2 =>
    decide ((s1 < e2 ∧ e1 > s2) ∨ (s2 < e1 ∧ e2 > s1))
  | _, _, _, _ => false

/-- Embeds the doubly nested pair loop of dataset.rs:913-933 for one group:
each timeframe is compared against every later one, and the first overlapping
pair yields the error carrying the group, the service and both endpoint
pairs. -/
def checkGroupPairs (g sv : String) : List Timeframe → Option (DatasetError Timeframe)
  | [] => none
  | t1 :: rest =>
    match rest.find? (fun t2 => pairOverlap t1 t2) with
    | some t2 =>
      some (.overlappingIntervals g sv (t1.start_time.getD 0) (t1.end_time.getD 0)
        (t2.start_time.getD 0) (t2.end_time.getD 0) [t1, t2])
    | none => checkGroupPairs g sv rest

/-- Iterates the grouped overlap check over the group keys (dataset.rs:912);
the `DashMap` yields its groups in an unspecified order, instantiated here by
first occurrence in the timeframes sequence. -/
def checkTimeframeGroups (timeframes : List Timeframe) :
    List (String × String) → Option (DatasetError Timeframe)
  | [] => none
  | (g, sv) :: ks =>
    match checkGroupPairs g sv
        (timeframes.filter (fun tf => tf.timeframe_group_id = g ∧ tf.service_id = sv)) with
    | some e => some e
    | none => checkTimeframeGroups timeframes ks

/-- The distinct group keys of the sequence, in first-occurrence order. -/
def dedupFirst (l : List (String × String)) : List (String × String) :=
  l.foldl (fun acc k => if acc.contains k then acc else acc ++ [k]) []

/-- Embeds the timeframes block of `Dataset::validate` (dataset.rs:870-936):
every timeframe's `service_id` must be a known service (first failure wins,
before any overlap is reported), then each `(timeframe_group_id, service_id)`
group is checked for pairwise interval overlap. -/
def validateTimeframes (validServiceIds : List String) (timeframes : List Timeframe) :
    Option (DatasetError Timeframe) :=
  match timeframes.find? (fun tf => !(validServiceIds.contains tf.service_id)) with
  | some tf =>
    some (.foreignKeyNotFound "service_id" "calendar.txt or calendar_dates.txt" [tf])
  | none =>
    checkTimeframeGroups timeframes
      (dedupFirst (timeframes.map (fun tf => (tf.timeframe_group_id, tf.service_id))))

theorem pairOverlap_symm (t1 t2 : Timeframe) : pairOverlap t1 t2 = pairOverlap t2 t1 := by
  obtain ⟨g1, st1, et1, sv1⟩ := t1
  obtain ⟨g2, st2, et2, sv2⟩ := t2
  rcases st1 with _ | s1 <;> rcases et1 with _ | e1 <;>
    rcases st2 with _ | s2 <;> rcases et2 with _ | e2 <;>
    simp only [pairOverlap]
  exact decide_eq_decide.mpr or_comm

theorem pairOverlap_eq_true_iff (t1 t2 : Timeframe) :
    pairOverlap t1 t2 = true ↔
      ∃ s1 e1 s2 e2, t1.start_time = some s1 ∧ t1.end_time = some e1 ∧
        t2.start_time = some s2 ∧ t2.end_time = some e2 ∧
        ((s1 < e2 ∧ e1 > s2) ∨ (s2 < e1 ∧ e2 > s1)) := by
  obtain ⟨g1, st1, et1, sv1⟩ := t1
  obtain ⟨g2, st2, et2, sv2⟩ := t2
  rcases st1 with _ | s1 <;> rcases et1 with _ | e1 <;>
    rcases st2 with _ | s2 <;> rcases et2 with _ | e2 <;>
    simp [pairOverlap]

theorem checkGroupPairs_eq_none_iff (g sv : String) (l : List Timeframe) :
    checkGroupPairs g sv l = none ↔
      l.Pairwise (fun t1 t2 => pairOverlap t1 t2 = false) := by
  induction l with
  | nil => simp [checkGroupPairs]
  | cons t1 rest ih =>
    rw [List.pairwise_cons, ← ih]
    simp only [checkGroupPairs]
    cases hf : rest.find? (fun t2 => pairOverlap t1 t2) with
    | some t2 =>
      simp only [reduceCtorEq, false_iff, not_and]
      intro hall
      have := List.find?_some hf
      have hmem := List.mem_of_find?_eq_some hf
      rw [hall t2 hmem] at this
      exact absurd this (by simp)
    | none =>
      constructor
      · intro h
        exact ⟨fun t2 hmem => by
          have := List.find?_eq_none.mp hf t2 hmem
          simpa using this, h⟩
      · intro h
        exact h.2

theorem checkGroupPairs_some_shape (g sv : String) (l : List Timeframe)
    (e : DatasetError Timeframe) :
    checkGroupPairs g sv l = some e →
      ∃ u1 ∈ l, ∃ u2 ∈ l, ∃ s1 e1 s2 e2,
        u1.start_time = some s1 ∧ u1.end_time = some e1 ∧
        u2.start_time = some s2 ∧ u2.end_time = some e2 ∧
        pairOverlap u1 u2 = true ∧
        e = .overlappingIntervals g sv s1 e1 s2 e2 [u1, u2] := by
  induction l with
  | nil => intro h; exact absurd h (by simp [checkGroupPairs])
  | cons t1 rest ih =>
    intro h
    simp only [checkGroupPairs] at h
    cases hf : rest.find? (fun t2 => pairOverlap t1 t2) with
    | some t2 =>
      rw [hf] at h
      have hov : pairOverlap t1 t2 = true := by simpa using List.find?_some hf
      obtain ⟨s1, e1, s2, e2, h1, h2, h3, h4, _⟩ := (pairOverlap_eq_true_iff t1 t2).mp hov
      refine ⟨t1, List.mem_cons_self _ _, t2,
        List.mem_cons_of_mem _ (List.mem_of_find?_eq_some hf), s1, e1, s2, e2,
        h1, h2, h3, h4, hov, ?_⟩
      injection h with h
      rw [← h, h1, h2, h3, h4]
      rfl
    | none =>
      rw [hf] at h
      obtain ⟨u1, hu1, u2, hu2, rest'⟩ := ih h
      exact ⟨u1, List.mem_cons_of_mem _ hu1, u2, List.mem_cons_of_mem _ hu2, rest'⟩

theorem checkTimeframeGroups_eq_none_iff (timeframes : List Timeframe)
    (keys : List (String × String)) :
    checkTimeframeGroups timeframes keys = none ↔
      ∀ k ∈ keys, checkGroupPairs k.1 k.2
        (timeframes.filter
          (fun tf => tf.timeframe_group_id = k.1 ∧ tf.service_id = k.2)) = none := by
  induction keys with
  | nil => simp [checkTimeframeGroups]
  | cons k ks ih =>
    obtain ⟨g, sv⟩ := k
    simp only [checkTimeframeGroups]
    cases hc : checkGroupPairs g sv
        (timeframes.filter (fun tf => tf.timeframe_group_id = g ∧ tf.service_id = sv)) with
    | some e =>
      simp only [reduceCtorEq, false_iff]
      intro hall
      exact absurd (hall (g, sv) (List.mem_cons_self _ _)) (by rw [hc]; simp)
    | none =>
      rw [ih]
      constructor
      · intro hall k hk
        rcases List.mem_cons.mp hk with hke | hk2
        · rw [hke]; exact hc
        · exact hall k hk2
      · intro hall k hk
        exact hall k (List.mem_cons_of_mem _ hk)

theorem checkTimeframeGroups_some_shape (timeframes : List Timeframe)
    (keys : List (String × String)) (e : DatasetError Timeframe) :
    checkTimeframeGroups timeframes keys = some e →
      ∃ k ∈ keys, checkGroupPairs k.1 k.2
        (timeframes.filter
          (fun tf => tf.timeframe_group_id = k.1 ∧ tf.service_id = k.2)) = some e := by
  induction keys with
  | nil => intro h; exact absurd h (by simp [checkTimeframeGroups])
  | cons k ks ih =>
    obtain ⟨g, sv⟩ := k
    intro h
    simp only [checkTimeframeGroups] at h
    cases hc : checkGroupPairs g sv
        (timeframes.filter (fun tf => tf.timeframe_group_id = g ∧ tf.service_id = sv)) with
    | some e2 =>
      rw [hc] at h
      injection h with h
      exact ⟨(g, sv), List.mem_cons_self _ _, by rw [hc, h]⟩
    | none =>
      rw [hc] at h
      obtain ⟨k2, hk2, hck⟩ := ih h
      exact ⟨k2, List.mem_cons_of_mem _ hk2, hck⟩

theorem mem_dedupFirst_aux (l : List (String × String)) :
    ∀ (acc : List (String × String)) (x : String × String),
      (x ∈ l.foldl (fun acc k => if acc.contains k then acc else acc ++ [k]) acc ↔
        x ∈ acc ∨ x ∈ l) := by
  induction l with
  | nil => intro acc x; simp
  | cons k rest ih =>
    intro acc x
    simp only [List.foldl_cons]
    rw [ih]
    by_cases hc : acc.contains k
    · rw [if_pos hc]
      constructor
      · rintro (h | h)
        · exact Or.inl h
        · exact Or.inr (List.mem_cons_of_mem _ h)
      · rintro (h | h)
        · exact Or.inl h
        · rcases List.mem_cons.mp h with hxe | h2
          · exact Or.inl (by rw [hxe]; exact List.mem_of_elem_eq_true hc)
          · exact Or.inr h2
    · rw [if_neg hc]
      constructor
      · rintro (h | h)
        · rcases List.mem_append.mp h with h2 | h2
          · exact Or.inl h2
          · exact Or.inr (List.mem_cons.mpr (Or.inl (by simpa using h2)))
        · exact Or.inr (List.mem_cons_of_mem _ h)
      · rintro (h | h)
        · exact Or.inl (List.mem_append.mpr (Or.inl h))
        · rcases List.mem_cons.mp h with hxe | h2
          · exact Or.inl (List.mem_append.mpr (Or.inr (by simp [hxe])))
          · exact Or.inr h2

theorem mem_dedupFirst (l : List (String × String)) (x : String × String) :
    x ∈ dedupFirst l ↔ x ∈ l := by
  unfold dedupFirst
  rw [mem_dedupFirst_aux]
  simp

/-! ## Claim C6 — timeframe interval non-overlap -/

/-- Claim C6: assuming every timeframe's `service_id` is known (otherwise the
step stops earlier with a foreign-key error), success of the timeframes block
implies that any two distinct timeframes sharing `(timeframe_group_id,
service_id)` with all four endpoints present have disjoint half-open intervals;
and if some such pair of intervals intersects, the block returns an
overlapping-intervals error naming a violating group and service and carrying
both pairs of endpoints and both records. -/
theorem validateTimeframes_overlap_spec (validServiceIds : List String)
    (timeframes : List Timeframe)
    (hfk : ∀ tf ∈ timeframes, validServiceIds.contains tf.service_id = true) :
    (validateTimeframes validServiceIds timeframes = none →
      ∀ t1 ∈ timeframes, ∀ t2 ∈ timeframes, t1 ≠ t2 →
        t1.timeframe_group_id = t2.timeframe_group_id →
        t1.service_id = t2.service_id →
        ∀ s1 e1 s2 e2, t1.start_time = some s1 → t1.end_time = some e1 →
          t2.start_time = some s2 → t2.end_time = some e2 →
          min e1 e2 ≤ max s1 s2) ∧
    ((∃ t1 ∈ timeframes, ∃ t2 ∈ timeframes, t1 ≠ t2 ∧
        t1.timeframe_group_id = t2.timeframe_group_id ∧
        t1.service_id = t2.service_id ∧
        ∃ s1 e1 s2 e2, t1.start_time = some s1 ∧ t1.end_time = some e1 ∧
          t2.start_time = some s2 ∧ t2.end_time = some e2 ∧
          max s1 s2 < min e1 e2) →
      ∃ u1 u2 s1 e1 s2 e2, u1 ∈ timeframes ∧ u2 ∈ timeframes ∧
        u1.timeframe_group_id = u2.timeframe_group_id ∧
        u1.service_id = u2.service_id ∧
        u1.start_time = some s1 ∧ u1.end_time = some e1 ∧
        u2.start_time = some s2 ∧ u2.end_time = some e2 ∧
        validateTimeframes validServiceIds timeframes =
          some (.overlappingIntervals u1.timeframe_group_id u1.service_id
            s1 e1 s2 e2 [u1, u2])) := by
  have hfind : timeframes.find? (fun tf => !(validServiceIds.contains tf.service_id)) =
      none :=
    List.find?_eq_none.mpr (fun tf htf => by
      have hm := List.mem_of_elem_eq_true (hfk tf htf)
      simp [hm])
  have hval : validateTimeframes validServiceIds timeframes =
      checkTimeframeGroups timeframes
        (dedupFirst (timeframes.map (fun tf => (tf.timeframe_group_id, tf.service_id)))) := by
    unfold validateTimeframes
    rw [hfind]
  have hsym : Symmetric (fun a b : Timeframe => pairOverlap a b = false) := by
    intro a b h
    rw [pairOverlap_symm]
    exact h
  have key : validateTimeframes validServiceIds timeframes = none →
      ∀ t1 ∈ timeframes, ∀ t2 ∈ timeframes, t1 ≠ t2 →
        t1.timeframe_group_id = t2.timeframe_group_id →
        t1.service_id = t2.service_id →
        ∀ s1 e1 s2 e2, t1.start_time = some s1 → t1.end_time = some e1 →
          t2.start_time = some s2 → t2.end_time = some e2 →
          min e1 e2 ≤ max s1 s2 := by
    intro hnone t1 ht1 t2 ht2 hne hg hsv s1 e1 s2 e2 hs1 he1 hs2 he2
    by_contra hcon
    have hlt : max s1 s2 < min e1 e2 := by omega
    rw [hval] at hnone
    have hall := (checkTimeframeGroups_eq_none_iff _ _).mp hnone
    have hk : (t1.timeframe_group_id, t1.service_id) ∈
        dedupFirst (timeframes.map (fun tf => (tf.timeframe_group_id, tf.service_id))) :=
      (mem_dedupFirst _ _).mpr (List.mem_map.mpr ⟨t1, ht1, rfl⟩)
    have hpw := (checkGroupPairs_eq_none_iff _ _ _).mp
      (hall (t1.timeframe_group_id, t1.service_id) hk)
    have ht1f : t1 ∈ timeframes.filter
        (fun tf => tf.timeframe_group_id = t1.timeframe_group_id ∧
          tf.service_id = t1.service_id) :=
      List.mem_filter.mpr ⟨ht1, by simp⟩
    have ht2f : t2 ∈ timeframes.filter
        (fun tf => tf.timeframe_group_id = t1.timeframe_group_id ∧
          tf.service_id = t1.service_id) :=
      List.mem_filter.mpr ⟨ht2, by simp [hg.symm, hsv.symm]⟩
    have hfalse : pairOverlap t1 t2 = false := hpw.forall hsym ht1f ht2f hne
    have htrue : pairOverlap t1 t2 = true :=
      (pairOverlap_eq_true_iff t1 t2).mpr
        ⟨s1, e1, s2, e2, hs1, he1, hs2, he2, Or.inl ⟨by omega, by omega⟩⟩
    rw [htrue] at hfalse
    exact Bool.noConfusion hfalse
  refine ⟨key, ?_⟩
  rintro ⟨t1, ht1, t2, ht2, hne, hg, hsv, s1, e1, s2, e2, hs1, he1, hs2, he2, hlt⟩
  by_cases hres : validateTimeframes validServiceIds timeframes = none
  · exfalso
    have := key hres t1 ht1 t2 ht2 hne hg hsv s1 e1 s2 e2 hs1 he1 hs2 he2
    omega
  · obtain ⟨e, he⟩ := Option.ne_none_iff_exists'.mp hres
    have he2' := he
    rw [hval] at he2'
    obtain ⟨k, _, hck⟩ := checkTimeframeGroups_some_shape _ _ _ he2'
    obtain ⟨u1, hu1, u2, hu2, s1', e1', s2', e2', hus1, hue1, hus2, hue2, _, hee⟩ :=
      checkGroupPairs_some_shape _ _ _ _ hck
    have hu1m := List.mem_filter.mp hu1
    have hu2m := List.mem_filter.mp hu2
    have hp1 : u1.timeframe_group_id = k.1 ∧ u1.service_id = k.2 := by
      have := hu1m.2
      simpa using this
    have hp2 : u2.timeframe_group_id = k.1 ∧ u2.service_id = k.2 := by
      have := hu2m.2
      simpa using this
    refine ⟨u1, u2, s1', e1', s2', e2', hu1m.1, hu2m.1, ?_, ?_,
      hus1, hue1, hus2, hue2, ?_⟩
    · rw [hp1.1, hp2.1]
    · rw [hp1.2, hp2.2]
    · rw [he, hee, hp1.1, hp1.2]

/-- Two timeframes of one group and service covering 06:00-09:00 and
08:30-10:00 (in seconds of day): scenario S5 of the specification. -/
def demoTimeframes : List Timeframe :=
  [⟨"G", some 21600, some 32400, "S"⟩, ⟨"G", some 30600, some 36000, "S"⟩]

/-- Claim C6 witness: the theorem applied to scenario S5 — the block reports an
overlapping-intervals error naming group G, service S and both endpoint
pairs. -/
theorem validateTimeframes_overlap_spec_witness :
    ∃ u1 u2 s1 e1 s2 e2, u1 ∈ demoTimeframes ∧ u2 ∈ demoTimeframes ∧
      u1.timeframe_group_id = u2.timeframe_group_id ∧
      u1.service_id = u2.service_id ∧
      u1.start_time = some s1 ∧ u1.end_time = some e1 ∧
      u2.start_time = some s2 ∧ u2.end_time = some e2 ∧
      validateTimeframes ["S"] demoTimeframes =
        some (.overlappingIntervals u1.timeframe_group_id u1.service_id
          s1 e1 s2 e2 [u1, u2]) :=
  (validateTimeframes_overlap_spec ["S"] demoTimeframes (by decide)).2
    ⟨⟨"G", some 21600, some 32400, "S"⟩, by decide,
     ⟨"G", some 30600, some 36000, "S"⟩, by decide,
     by decide, rfl, rfl,
     21600, 32400, 30600, 36000, rfl, rfl, rfl, rfl, by decide⟩

/-! ## Stop-times monotonicity (dataset.rs:628-705) -/

/-- Embeds `Ord for Option<NaiveServiceTime>` as Rust derives it: `None` sorts
before `Some`, and two `Some`s compare by `NaiveServiceTime::cmp`. -/
def optNstCmp : Option NaiveServiceTime → Option NaiveServiceTime → Ordering
  | none, none => .eq
  | none, some _ => .lt
  | some _, none => .gt
  | some a, some b => a.cmp b

/-- Embeds the sort comparator of dataset.rs:640-644: by `trip_id` (string
order), then by `arrival_time`. -/
def stopTimeSortCmp (a b : StopTime) : Ordering :=
  (compare a.trip_id b.trip_id).then (optNstCmp a.arrival_time b.arrival_time)

/-- The ordering test a stable ascending sort keeps an earlier element in
place by: the comparator does not say `gt`. -/
def stopTimeLe (a b : StopTime) : Bool := stopTimeSortCmp a b ≠ .gt

/-- Stable insertion: the new element goes after every earlier element the
comparator does not place strictly above it. -/
def insertByLe {α : Type} (le : α → α → Bool) (x : α) : List α → List α
  | [] => [x]
  | y :: ys => if le y x then y :: insertByLe le x ys else x :: y :: ys

/-- Stable insertion sort: a model of Rust's stable `sort_by` (any stable sort
produces the same list for a given comparator and input order). -/
def stableSortBy {α : Type} (le : α → α → Bool) (l : List α) : List α :=
  l.foldl (fun acc x => insertByLe le x acc) []

theorem mem_insertByLe {α : Type} (le : α → α → Bool) (x a : α) (l : List α) :
    a ∈ insertByLe le x l ↔ a = x ∨ a ∈ l := by
  induction l with
  | nil => simp [insertByLe]
  | cons y ys ih =>
    simp only [insertByLe]
    by_cases h : le y x
    · rw [if_pos h]
      simp only [List.mem_cons, ih]
      tauto
    · rw [if_neg h]
      simp only [List.mem_cons]

theorem mem_stableSortBy_aux {α : Type} (le : α → α → Bool) (l : List α) :
    ∀ (acc : List α) (a : α),
      a ∈ l.foldl (fun acc x => insertByLe le x acc) acc ↔ a ∈ acc ∨ a ∈ l := by
  induction l with
  | nil => intro acc a; simp
  | cons x rest ih =>
    intro acc a
    simp only [List.foldl_cons]
    rw [ih, mem_insertByLe]
    simp only [List.mem_cons]
    tauto

theorem mem_stableSortBy {α : Type} (le : α → α → Bool) (l : List α) (a : α) :
    a ∈ stableSortBy le l ↔ a ∈ l := by
  unfold stableSortBy
  rw [mem_stableSortBy_aux]
  simp

/-- Pointwise update of a map modelled as a function — one `DashMap::entry`
insertion. -/
def updFn {β : Type} (f : String → β) (k : String) (v : β) : String → β :=
  fun x => if x = k then v else f x

theorem updFn_self {β : Type} (f : String → β) (k : String) (v : β) :
    updFn f k v k = v := by simp [updFn]

theorem updFn_ne {β : Type} (f : String → β) (k : String) (v : β) (x : String)
    (h : ¬ x = k) : updFn f k v x = f x := by simp [updFn, h]

/-- Embeds the per-record loop of dataset.rs:646-704 over the sorted sequence:
per record, the `trip_id` and optional `stop_id` foreign keys are checked, then
the record's `stop_sequence` must exceed the last one pushed for its trip, and
a present `shape_dist_traveled` errors when `<=` the last one pushed for its
trip — an IEEE comparison, false whenever either side is NaN, so a NaN never
trips this check in the source.
The two accumulator maps (`trip_stop_sequences`, `trip_shape_distances`) are
functions from trip to the pushed values, most recent first (the head plays
the Rust `Vec`'s `last()`). -/
def scanStopTimes (trips stops : List String) :
    List StopTime → (String → List Nat) → (String → List F32) →
    Option (DatasetError StopTime)
  | [], _, _ => none
  | st :: rest, seqAcc, distAcc =>
    if trips.contains st.trip_id = false then
      some (.foreignKeyNotFound "trip_id" "trips.txt" [st])
    else if st.stop_id.any (fun sid => !(stops.contains sid)) = true then
      some (.foreignKeyNotFound "stop_id" "stops.txt" [st])
    else if (seqAcc st.trip_id).head?.any
        (fun prev => decide (st.stop_sequence ≤ prev)) = true then
      some (.inconsistentValue "stop_sequence" [st])
    else
      match st.shape_dist_traveled with
      | some d =>
        if (distAcc st.trip_id).head?.any (fun prev => F32.le d prev) = true then
          some (.inconsistentValue "shape_dist_traveled" [st])
        else
          scanStopTimes trips stops rest
            (updFn seqAcc st.trip_id (st.stop_sequence :: seqAcc st.trip_id))
            (updFn distAcc st.trip_id (d :: distAcc st.trip_id))
      | none =>
        scanStopTimes trips stops rest
          (updFn seqAcc st.trip_id (st.stop_sequence :: seqAcc st.trip_id))
          distAcc

/-- Embeds the stop-times block of `Dataset::validate` (dataset.rs:628-705):
collect the stop-times (in the map's unspecified iteration order, the input
list), stable-sort by `(trip_id, arrival_time)`, and run the per-record
checks. -/
def validateStopTimes (trips stops : List String) (stopTimes : List StopTime) :
    Option (DatasetError StopTime) :=
  scanStopTimes trips stops (stableSortBy stopTimeLe stopTimes)
    (fun _ => []) (fun _ => [])

/-- The `stop_sequence` values of trip `t`, in list order. -/
def tripSeqs (t : String) (l : List StopTime) : List Nat :=
  (l.filter (fun st => st.trip_id = t)).map (fun st => st.stop_sequence)

/-- The present `shape_dist_traveled` values of trip `t`, in list order. -/
def tripDists (t : String) (l : List StopTime) : List F32 :=
  (l.filter (fun st => st.trip_id = t)).filterMap (fun st => st.shape_dist_traveled)

/-- Per trip along the list: the stop sequences are strictly increasing, and
each consecutive pair of present distances (a, b) refutes the scan's test —
`F32.le b a = false`. On numeric values that is strict increase; when either
side is NaN the IEEE comparison is false and the pair passes vacuously. -/
def perTripMonotone (l : List StopTime) : Prop :=
  ∀ t, List.Chain' (fun a b => a < b) (tripSeqs t l) ∧
    List.Chain' (fun a b => F32.le b a = false) (tripDists t l)

/-- A list chained by `r` whose head, if any, is `r`-above the given previous
value, if any. -/
def chainFrom {α : Type} (r : α → α → Prop) (prev : Option α) (xs : List α) : Prop :=
  List.Chain' r xs ∧
    ∀ p, prev = some p → ∀ x, xs.head? = some x → r p x

theorem tripSeqs_cons_eq {st : StopTime} {t : String} (h : st.trip_id = t)
    (l : List StopTime) :
    tripSeqs t (st :: l) = st.stop_sequence :: tripSeqs t l := by
  simp [tripSeqs, List.filter_cons, h]

theorem tripSeqs_cons_ne {st : StopTime} {t : String} (h : ¬ st.trip_id = t)
    (l : List StopTime) : tripSeqs t (st :: l) = tripSeqs t l := by
  simp [tripSeqs, List.filter_cons, h]

theorem tripDists_cons_some {st : StopTime} {t : String} {d : F32}
    (h : st.trip_id = t) (hd : st.shape_dist_traveled = some d) (l : List StopTime) :
    tripDists t (st :: l) = d :: tripDists t l := by
  simp [tripDists, List.filter_cons, h, List.filterMap_cons, hd]

theorem tripDists_cons_none {st : StopTime} {t : String}
    (h : st.trip_id = t) (hd : st.shape_dist_traveled = none) (l : List StopTime) :
    tripDists t (st :: l) = tripDists t l := by
  simp [tripDists, List.filter_cons, h, List.filterMap_cons, hd]

theorem tripDists_cons_ne {st : StopTime} {t : String} (h : ¬ st.trip_id = t)
    (l : List StopTime) : tripDists t (st :: l) = tripDists t l := by
  simp [tripDists, List.filter_cons, h]

theorem scanStopTimes_none_chain (trips stops : List String) :
    ∀ (l : List StopTime) (seqAcc : String → List Nat) (distAcc : String → List F32),
      scanStopTimes trips stops l seqAcc distAcc = none →
      ∀ t, chainFrom (fun a b => a < b) (seqAcc t).head? (tripSeqs t l) ∧
        chainFrom (fun a b => F32.le b a = false) (distAcc t).head? (tripDists t l) := by
  intro l
  induction l with
  | nil =>
    intro seqAcc distAcc _ t
    exact ⟨⟨List.chain'_nil, fun p _ x hx => absurd hx (by simp [tripSeqs])⟩,
           ⟨List.chain'_nil, fun p _ x hx => absurd hx (by simp [tripDists])⟩⟩
  | cons st rest ih =>
    intro seqAcc distAcc hscan t
    simp only [scanStopTimes] at hscan
    by_cases h1 : trips.contains st.trip_id = false
    · rw [if_pos h1] at hscan
      exact absurd hscan (by simp)
    · rw [if_neg h1] at hscan
      by_cases h2 : st.stop_id.any (fun sid => !(stops.contains sid)) = true
      · rw [if_pos h2] at hscan
        exact absurd hscan (by simp)
      · rw [if_neg h2] at hscan
        by_cases h3 : (seqAcc st.trip_id).head?.any
            (fun prev => decide (st.stop_sequence ≤ prev)) = true
        · rw [if_pos h3] at hscan
          exact absurd hscan (by simp)
        · rw [if_neg h3] at hscan
          cases hd : st.shape_dist_traveled with
          | some d =>
            rw [hd] at hscan
            simp only [] at hscan
            by_cases h4 : (distAcc st.trip_id).head?.any
                (fun prev => F32.le d prev) = true
            · rw [if_pos h4] at hscan
              exact absurd hscan (by simp)
            · rw [if_neg h4] at hscan
              have ihh := ih _ _ hscan
              by_cases ht : st.trip_id = t
              · subst ht
                have hseq := (ihh st.trip_id).1
                have hdist := (ihh st.trip_id).2
                rw [updFn_self] at hseq hdist
                constructor
                · rw [tripSeqs_cons_eq rfl]
                  refine ⟨?_, ?_⟩
                  · rw [List.chain'_cons']
                    exact ⟨fun y hy => hseq.2 st.stop_sequence rfl y hy, hseq.1⟩
                  · intro p hp x hx
                    have hxx : st.stop_sequence = x := by simpa using hx
                    rw [hp] at h3
                    simp only [Option.any_some, decide_eq_true_eq] at h3
                    omega
                · rw [tripDists_cons_some rfl hd]
                  refine ⟨?_, ?_⟩
                  · rw [List.chain'_cons']
                    exact ⟨fun y hy => hdist.2 d rfl y hy, hdist.1⟩
                  · intro p hp x hx
                    have hxx : d = x := by simpa using hx
                    rw [hp] at h4
                    simp only [Option.any_some, Bool.not_eq_true] at h4
                    rw [← hxx]
                    exact h4
              · have hne2 : ¬ t = st.trip_id := fun hh => ht hh.symm
                have hseq := (ihh t).1
                have hdist := (ihh t).2
                rw [updFn_ne _ _ _ _ hne2] at hseq
                rw [updFn_ne _ _ _ _ hne2] at hdist
                rw [tripSeqs_cons_ne ht, tripDists_cons_ne ht]
                exact ⟨hseq, hdist⟩
          | none =>
            rw [hd] at hscan
            simp only [] at hscan
            have ihh := ih _ _ hscan
            by_cases ht : st.trip_id = t
            · subst ht
              have hseq := (ihh st.trip_id).1
              have hdist := (ihh st.trip_id).2
              rw [updFn_self] at hseq
              constructor
              · rw [tripSeqs_cons_eq rfl]
                refine ⟨?_, ?_⟩
                · rw [List.chain'_cons']
                  exact ⟨fun y hy => hseq.2 st.stop_sequence rfl y hy, hseq.1⟩
                · intro p hp x hx
                  have hxx : st.stop_sequence = x := by simpa using hx
                  rw [hp] at h3
                  simp only [Option.any_some, decide_eq_true_eq] at h3
                  omega
              · rw [tripDists_cons_none rfl hd]
                exact hdist
            · have hne2 : ¬ t = st.trip_id := fun hh => ht hh.symm
              have hseq := (ihh t).1
              have hdist := (ihh t).2
              rw [updFn_ne _ _ _ _ hne2] at hseq
              rw [tripSeqs_cons_ne ht, tripDists_cons_ne ht]
              exact ⟨hseq, hdist⟩

theorem scanStopTimes_some_shape (trips stops : List String) :
    ∀ (l : List StopTime) (seqAcc : String → List Nat) (distAcc : String → List F32),
      (∀ st ∈ l, trips.contains st.trip_id = true ∧
        st.stop_id.all (fun sid => stops.contains sid) = true) →
      scanStopTimes trips stops l seqAcc distAcc = none ∨
        ∃ st ∈ l,
          scanStopTimes trips stops l seqAcc distAcc =
            some (.inconsistentValue "stop_sequence" [st]) ∨
          scanStopTimes trips stops l seqAcc distAcc =
            some (.inconsistentValue "shape_dist_traveled" [st]) := by
  intro l
  induction l with
  | nil => intro seqAcc distAcc _; exact Or.inl rfl
  | cons st rest ih =>
    intro seqAcc distAcc hfk
    have h1 : ¬ (trips.contains st.trip_id = false) := by
      rw [(hfk st (List.mem_cons_self _ _)).1]
      simp
    have h2 : ¬ (st.stop_id.any (fun sid => !(stops.contains sid)) = true) := by
      have hall := (hfk st (List.mem_cons_self _ _)).2
      cases hsid : st.stop_id with
      | none => simp
      | some sid =>
        rw [hsid] at hall
        simp only [Option.all_some] at hall
        simp only [Option.any_some]
        rw [hall]
        decide
    simp only [scanStopTimes]
    rw [if_neg h1, if_neg h2]
    by_cases h3 : (seqAcc st.trip_id).head?.any
        (fun prev => decide (st.stop_sequence ≤ prev)) = true
    · rw [if_pos h3]
      exact Or.inr ⟨st, List.mem_cons_self _ _, Or.inl rfl⟩
    · rw [if_neg h3]
      cases hd : st.shape_dist_traveled with
      | some d =>
        simp only []
        by_cases h4 : (distAcc st.trip_id).head?.any
            (fun prev => F32.le d prev) = true
        · rw [if_pos h4]
          exact Or.inr ⟨st, List.mem_cons_self _ _, Or.inr rfl⟩
        · rw [if_neg h4]
          rcases ih (updFn seqAcc st.trip_id (st.stop_sequence :: seqAcc st.trip_id))
              (updFn distAcc st.trip_id (d :: distAcc st.trip_id))
              (fun x hx => hfk x (List.mem_cons_of_mem _ hx)) with hnone | ⟨u, hu, hcase⟩
          · exact Or.inl hnone
          · exact Or.inr ⟨u, List.mem_cons_of_mem _ hu, hcase⟩
      | none =>
        simp only []
        rcases ih (updFn seqAcc st.trip_id (st.stop_sequence :: seqAcc st.trip_id))
            distAcc
            (fun x hx => hfk x (List.mem_cons_of_mem _ hx)) with hnone | ⟨u, hu, hcase⟩
        · exact Or.inl hnone
        · exact Or.inr ⟨u, List.mem_cons_of_mem _ hu, hcase⟩

/-! ## Claim C1 — stop-times monotonicity along each trip -/

/-- Claim C1 (amended): assuming every stop-time's `trip_id` names a known trip
and every present `stop_id` a known stop (otherwise the step stops at a
foreign-key error first), the stop-times block succeeds only if, for each
trip, the stop-times in sorted order — by `(trip_id, arrival_time)`, so within
a trip by arrival time under the code's `NaiveServiceTime` ordering — have
strictly increasing `stop_sequence` values, and each consecutive pair of
present `shape_dist_traveled` values refutes the IEEE test `next <= prev`:
strict increase when both are numeric, but vacuously passed when either is NaN
(a NaN distance also passes the row check, since `x < 0.0` is false for NaN).
When some trip violates this condition, the block returns an
inconsistent-value error on `stop_sequence` or on `shape_dist_traveled`
carrying the offending stop-time. -/
theorem validateStopTimes_monotonic (trips stops : List String)
    (stopTimes : List StopTime)
    (hfk : ∀ st ∈ stopTimes, trips.contains st.trip_id = true ∧
      st.stop_id.all (fun sid => stops.contains sid) = true) :
    (validateStopTimes trips stops stopTimes = none →
      perTripMonotone (stableSortBy stopTimeLe stopTimes)) ∧
    (¬ perTripMonotone (stableSortBy stopTimeLe stopTimes) →
      ∃ st ∈ stopTimes,
        validateStopTimes trips stops stopTimes =
          some (.inconsistentValue "stop_sequence" [st]) ∨
        validateStopTimes trips stops stopTimes =
          some (.inconsistentValue "shape_dist_traveled" [st])) := by
  have hmain : validateStopTimes trips stops stopTimes = none →
      perTripMonotone (stableSortBy stopTimeLe stopTimes) := by
    intro hnone t
    have hA := scanStopTimes_none_chain trips stops
      (stableSortBy stopTimeLe stopTimes) (fun _ => []) (fun _ => []) hnone t
    exact ⟨hA.1.1, hA.2.1⟩
  refine ⟨hmain, ?_⟩
  intro hmono
  have hfk2 : ∀ st ∈ stableSortBy stopTimeLe stopTimes,
      trips.contains st.trip_id = true ∧
      st.stop_id.all (fun sid => stops.contains sid) = true :=
    fun st hst => hfk st ((mem_stableSortBy _ _ _).mp hst)
  rcases scanStopTimes_some_shape trips stops (stableSortBy stopTimeLe stopTimes)
      (fun _ => []) (fun _ => []) hfk2 with hnone | ⟨st, hst, hcase⟩
  · exact absurd (hmain hnone) hmono
  · exact ⟨st, (mem_stableSortBy _ _ _).mp hst, hcase⟩

/-- Stop-times of trip T1 whose arrival-time order yields stop sequences
1, 3, 2: scenario S3 of the specification. -/
def demoStopTimes : List StopTime :=
  [⟨"T1", some ⟨8, 0, 0, false⟩, some "S1", 1, none⟩,
   ⟨"T1", some ⟨8, 10, 0, false⟩, some "S1", 3, none⟩,
   ⟨"T1", some ⟨8, 20, 0, false⟩, some "S1", 2, none⟩]

/-- Claim C1 witness: the theorem applied to scenario S3 — the sequence 1, 3, 2
in arrival order is not monotone, so the block reports an inconsistent-value
error on `stop_sequence` (or `shape_dist_traveled`) carrying an offending
stop-time. -/
theorem validateStopTimes_monotonic_witness :
    ∃ st ∈ demoStopTimes,
      validateStopTimes ["T1"] ["S1"] demoStopTimes =
        some (.inconsistentValue "stop_sequence" [st]) ∨
      validateStopTimes ["T1"] ["S1"] demoStopTimes =
        some (.inconsistentValue "shape_dist_traveled" [st]) :=
  (validateStopTimes_monotonic ["T1"] ["S1"] demoStopTimes (by decide)).2
    (fun h => by
      have h1 := (h "T1").1
      have he : tripSeqs "T1" (stableSortBy stopTimeLe demoStopTimes) = [1, 3, 2] := by
        decide
      rw [he] at h1
      simp [List.chain'_cons] at h1)

/-- Stop-times of trip T1 whose present distances, in arrival order, are
2.0, NaN, 1.0: NaN passes the row check (`x < 0.0` is false for NaN) and both
scan comparisons against it are false, so the block accepts the trip. -/
def nanDemoStopTimes : List StopTime :=
  [⟨"T1", some ⟨8, 0, 0, false⟩, some "S1", 1, some (.val 2)⟩,
   ⟨"T1", some ⟨8, 10, 0, false⟩, some "S1", 2, some .nan⟩,
   ⟨"T1", some ⟨8, 20, 0, false⟩, some "S1", 3, some (.val 1)⟩]

/-- Claim C1 counterexample: the original claim — success only if the present
`shape_dist_traveled` values are strictly increasing per trip — is false of
the source. On `nanDemoStopTimes` the block succeeds although the distance
sequence 2.0, NaN, 1.0 is not strictly increasing under the `f32` order (no
value is below NaN or above it, and the numeric 1.0 coming after 2.0 is
strictly smaller): every `<=` against NaN is false, so the scan never fires. -/
theorem validateStopTimes_nan_counterexample :
    validateStopTimes ["T1"] ["S1"] nanDemoStopTimes = none ∧
    tripDists "T1" (stableSortBy stopTimeLe nanDemoStopTimes) =
      [F32.val 2, F32.nan, F32.val 1] ∧
    ¬ List.Chain' (fun a b => F32.lt a b = true)
        (tripDists "T1" (stableSortBy stopTimeLe nanDemoStopTimes)) ∧
    F32.lt (F32.val 1) (F32.val 2) = true := by
  have he : tripDists "T1" (stableSortBy stopTimeLe nanDemoStopTimes) =
      [F32.val 2, F32.nan, F32.val 1] := by decide
  refine ⟨by decide, he, ?_, by decide⟩
  rw [he]
  intro hch
  simp [List.chain'_cons, F32.lt] at hch
